import Mathlib

/-!
Verification of the skale-consensus core against its specification.

The development shallowly embeds the parts of the source relevant to the
verified claims: the `Schain` driver (commit path, bootstrap, stale-input
handling), `CommittedBlock` (de)serialization, the message router
(`postOrDefer`) and the per-peer delayed-send queues.  Bytes are modelled
as natural numbers, machine integers as `Nat` (with explicit bounds where
overflow matters), and fallible code as `Option`-returning functions.
-/

set_option maxRecDepth 100000

namespace Skale

/-! ## Byte-level utilities (decimal digits, little-endian integers) -/

/-- Is the byte an ASCII decimal digit (`0`..`9`)? -/
def isDigitByte (c : Nat) : Bool := 48 ≤ c && c ≤ 57

/-- Decimal digits of `n`, least significant first.  Fuel-based so that it
reduces in the kernel; `natDigits` supplies enough fuel. -/
def natDigitsAux : Nat → Nat → List Nat
  | 0, _ => []
  | _ + 1, 0 => []
  | fuel + 1, n + 1 => ((n + 1) % 10) :: natDigitsAux fuel ((n + 1) / 10)

/-- Decimal digits of `n`, least significant first.  Twenty digits of fuel
cover every 64-bit value (the only integers the wire format carries);
`natDigits_eq` records the bound under which the fuel suffices. -/
def natDigits (n : Nat) : List Nat := natDigitsAux 20 n

/-- ASCII decimal rendering of a natural number, most significant digit first. -/
def encodeNat (n : Nat) : List Nat :=
  if n = 0 then [48] else ((natDigits n).reverse).map (· + 48)

/-- Value of a most-significant-first list of ASCII digit bytes. -/
def digitsToNat (l : List Nat) : Nat := l.foldl (fun a c => a * 10 + (c - 48)) 0

/-- Split a byte list into its maximal digit prefix and the rest. -/
def spanDigits : List Nat → List Nat × List Nat
  | [] => ([], [])
  | c :: cs =>
    if isDigitByte c then
      let p := spanDigits cs
      (c :: p.1, p.2)
    else ([], c :: cs)

/-- `k` little-endian base-256 bytes of `n`. -/
def leBytes : Nat → Nat → List Nat
  | 0, _ => []
  | k + 1, n => n % 256 :: leBytes k (n / 256)

/-- The 8-byte little-endian encoding of a 64-bit value (`uint64_t` on the wire). -/
def le64 (n : Nat) : List Nat := leBytes 8 n

/-- Value of a little-endian base-256 byte list. -/
def fromLEBytes (l : List Nat) : Nat := l.foldr (fun b r => b + 256 * r) 0

/-- Concatenation of a list of byte lists. -/
def flat : List (List Nat) → List Nat
  | [] => []
  | x :: xs => x ++ flat xs

/-- Map a fallible function over a list, failing if any element fails. -/
def mapOption (f : α → Option β) : List α → Option (List β)
  | [] => some []
  | x :: xs => (f x).bind fun y => (mapOption f xs).bind fun ys => some (y :: ys)

/-! ## CommittedBlock serialization (src/datastructures/CommittedBlock.cpp)

The wire format is: 8 bytes little-endian `headerSize`, then `headerSize`
bytes of JSON header, then the concatenated transaction payloads in the
order declared by the header's `sizes` array.  The JSON header itself is
produced by `CommittedBlockHeader::toBuffer`, which is not under src/, so
the canonical header text is modelled from the spec (section 6, wire
format): a JSON object with fields proposerIndex, proposerNodeID, blockID,
schainID, timeStamp, timeStampMs, hash (hex digest string) and sizes. -/

/-- A committed block as far as serialization is concerned: exactly the
fields written by `CommittedBlock::serialize` / read back by
`CommittedBlock::CommittedBlock(ptr<vector<uint8_t>>)`.  Transactions are
opaque byte strings. -/
structure CommittedBlock where
  proposerIndex : Nat
  proposerNodeID : Nat
  blockID : Nat
  schainID : Nat
  timeStamp : Nat
  timeStampMs : Nat
  hash : List Nat
  transactionList : List (List Nat)
deriving DecidableEq

/-- ASCII byte of a hex digit (lower case, as produced by toHex). -/
def hexChar (d : Nat) : Nat := if d < 10 then 48 + d else 87 + d

/-- Modelled from the spec: the block hash is a SHA-256 digest of the
block's header fields and transactions, rendered as a 64-character hex
string (`SHAHash`, `BlockProposal::calculateHash` are not under src/).
The digest function itself is external (openssl); it is modelled by a
computable stand-in digest.  No verified property depends on the digest's
definition -- only on the fact that deserialization recomputes the hash
with the same function that well-formed blocks carry. -/
def digestOfContent (content : List Nat) : List Nat :=
  let v := content.foldl (fun a c => (a * 131 + c + 1) % (2 ^ 256)) 0
  (List.range 64).map (fun i => hexChar (v / 16 ^ i % 16))

def blockContentBytes (b : CommittedBlock) : List Nat :=
  encodeNat b.proposerIndex ++ encodeNat b.proposerNodeID ++ encodeNat b.blockID ++
    encodeNat b.schainID ++ encodeNat b.timeStamp ++ encodeNat b.timeStampMs ++
    flat b.transactionList

/-- `calculateHash` as called at the end of block deserialization. -/
def calculateHash (b : CommittedBlock) : List Nat := digestOfContent (blockContentBytes b)

/-! Byte lists of the literal chunks of the canonical JSON header.
123 and 125 are the opening and closing braces, 34 is the double quote,
44 the comma, 58 the colon, 91 and 93 the square brackets. -/

def litProposerIndex : List Nat := [123, 34, 112, 114, 111, 112, 111, 115, 101, 114, 73, 110, 100, 101, 120, 34, 58]

def litProposerNodeID : List Nat := [44, 34, 112, 114, 111, 112, 111, 115, 101, 114, 78, 111, 100, 101, 73, 68, 34, 58]

def litBlockID : List Nat := [44, 34, 98, 108, 111, 99, 107, 73, 68, 34, 58]

def litSchainID : List Nat := [44, 34, 115, 99, 104, 97, 105, 110, 73, 68, 34, 58]

def litTimeStamp : List Nat := [44, 34, 116, 105, 109, 101, 83, 116, 97, 109, 112, 34, 58]

def litTimeStampMs : List Nat := [44, 34, 116, 105, 109, 101, 83, 116, 97, 109, 112, 77, 115, 34, 58]

def litHash : List Nat := [44, 34, 104, 97, 115, 104, 34, 58, 34]

def litSizes : List Nat := [44, 34, 115, 105, 122, 101, 115, 34, 58]

/-- Render of the sizes array after its opening bracket: sizes separated by
commas, closed by the closing bracket (93). -/
def renderSizesInner : List Nat → List Nat
  | [] => [93]
  | [n] => encodeNat n ++ [93]
  | n :: rest => encodeNat n ++ 44 :: renderSizesInner rest

def renderSizes (sizes : List Nat) : List Nat := 91 :: renderSizesInner sizes

/-- Modelled from the spec: the canonical JSON header text written by
`CommittedBlockHeader::toBuffer` (not under src/), with the fields in the
order given by the spec's wire-format section. -/
def renderHeaderBody (b : CommittedBlock) : List Nat :=
  litProposerIndex ++ encodeNat b.proposerIndex ++
    litProposerNodeID ++ encodeNat b.proposerNodeID ++
    litBlockID ++ encodeNat b.blockID ++
    litSchainID ++ encodeNat b.schainID ++
    litTimeStamp ++ encodeNat b.timeStamp ++
    litTimeStampMs ++ encodeNat b.timeStampMs ++
    litHash ++ b.hash ++ [34] ++
    litSizes ++ renderSizes (b.transactionList.map List.length)

def renderHeader (b : CommittedBlock) : List Nat := renderHeaderBody b ++ [125]

/-- `CommittedBlock::serialize`: 8-byte little-endian header size, the JSON
header, then the concatenated transaction payloads. -/
def serializeCommittedBlock (b : CommittedBlock) : List Nat :=
  le64 (renderHeader b).length ++ renderHeader b ++ flat b.transactionList

/-- Modelled from the spec: implementation constant from SkaleCommon.h
(not under src/). -/
def MAX_BUFFER_SIZE : Nat := 10000000

/-! ### Header parsing -/

/-- Consume an expected literal byte sequence. -/
def parseLit : List Nat → List Nat → Option (List Nat)
  | [], s => some s
  | _ :: _, [] => none
  | l :: ls, c :: cs => if c = l then parseLit ls cs else none

/-- Parse a decimal number (at least one digit). -/
def parseNatB (s : List Nat) : Option (Nat × List Nat) :=
  let p := spanDigits s
  if p.1 = [] then none else some (digitsToNat p.1, p.2)

/-- Split at the first double quote byte (34). -/
def spanNonQuote : List Nat → List Nat × List Nat
  | [] => ([], [])
  | c :: cs =>
    if c = 34 then ([], c :: cs)
    else
      let p := spanNonQuote cs
      (c :: p.1, p.2)

/-- Parse a string body terminated by a double quote, consuming the quote. -/
def parseQuoted (s : List Nat) : Option (List Nat × List Nat) :=
  let p := spanNonQuote s
  match p.2 with
  | 34 :: rest => some (p.1, rest)
  | _ => none

/-- Parse the comma-separated numbers of a sizes array up to and including
the closing bracket.  Fuel-based; one size is consumed per step. -/
def parseSizesAux : Nat → List Nat → Option (List Nat × List Nat)
  | 0, _ => none
  | fuel + 1, s =>
    (parseNatB s).bind fun x =>
      if x.2.head? = some 44 then
        (parseSizesAux fuel x.2.tail).bind fun y => some (x.1 :: y.1, y.2)
      else if x.2.head? = some 93 then some ([x.1], x.2.tail)
      else none

/-- Parse a JSON array of numbers, brackets included. -/
def parseSizes (s : List Nat) : Option (List Nat × List Nat) :=
  if s.head? = some 91 then
    if s.tail.head? = some 93 then some ([], s.tail.tail)
    else parseSizesAux s.tail.length s.tail
  else none

/-- The fields read out of the JSON header by
`CommittedBlock::parseBlockHeader`. -/
structure BlockHeaderData where
  proposerIndex : Nat
  proposerNodeID : Nat
  blockID : Nat
  schainID : Nat
  timeStamp : Nat
  timeStampMs : Nat
  hash : List Nat
  sizes : List Nat
deriving DecidableEq

/-- Modelled from the spec: parse of the canonical JSON header (the source
uses `nlohmann::json::parse` plus `Header::getUint64` field lookups; the
JSON library is vendored thirdparty code not under src/).  The parser
accepts exactly the canonical rendering and fails on malformed text or on
a missing field, as the source's parse-plus-required-field-lookup does. -/
def parseNatField (lit : List Nat) (s : List Nat) : Option (Nat × List Nat) :=
  (parseLit lit s).bind parseNatB

def parseHeaderCanonical (h : List Nat) : Option BlockHeaderData :=
  (parseNatField litProposerIndex h).bind fun x1 =>
  (parseNatField litProposerNodeID x1.2).bind fun x2 =>
  (parseNatField litBlockID x2.2).bind fun x3 =>
  (parseNatField litSchainID x3.2).bind fun x4 =>
  (parseNatField litTimeStamp x4.2).bind fun x5 =>
  (parseNatField litTimeStampMs x5.2).bind fun x6 =>
  (parseLit litHash x6.2).bind fun r12 =>
  (parseQuoted r12).bind fun xh =>
  (parseLit litSizes xh.2).bind fun r14 =>
  (parseSizes r14).bind fun xs =>
  (parseLit [125] xs.2).bind fun r16 =>
  if r16 = [] then some ⟨x1.1, x2.1, x3.1, x4.1, x5.1, x6.1, xh.1, xs.1⟩ else none

/-- `CommittedBlock::parseBlockHeader`: checks the header is longer than
two bytes, starts with an opening brace and ends with a closing brace,
then parses the JSON and reads the required fields. -/
def parseBlockHeader (h : List Nat) : Option BlockHeaderData :=
  if h.length ≤ 2 then none
  else if h.head? ≠ some 123 then none
  else if h.getLast? ≠ some 125 then none
  else parseHeaderCanonical h

/-- Cut consecutive slices of the declared sizes out of `d`, starting at
`off`; fails when a declared size runs past the end of the input. -/
def takeSlices : List Nat → Nat → List Nat → Option (List (List Nat))
  | [], _, _ => some []
  | sz :: rest, off, d =>
    if off + sz ≤ d.length then
      (takeSlices rest (off + sz) d).bind fun l => some ((d.drop off).take sz :: l)
    else none

/-- Modelled from the spec: `TransactionList::deserialize(sizes, data,
offset)` (not under src/) — the transaction payloads are the consecutive
slices of the declared sizes. -/
def transactionListDeserialize (sizes : List Nat) (data : List Nat) (off : Nat) :
    Option (List (List Nat)) := takeSlices sizes off data

/-- Modelled from the spec: `TransactionList::serialize` — concatenated
payloads. -/
def transactionListSerialize (txs : List (List Nat)) : List Nat := flat txs

/-- Modelled from the spec: `Transaction` standalone serialization — the
opaque payload behind a length prefix. -/
def serializeTransaction (t : List Nat) : List Nat := le64 t.length ++ t

/-- Modelled from the spec: standalone transaction deserialization,
requiring the buffer to hold exactly the declared payload. -/
def deserializeTransaction (d : List Nat) : Option (List Nat) :=
  if d.length < 8 then none
  else
    let len := fromLEBytes (d.take 8)
    if d.length = 8 + len then some ((d.drop 8).take len) else none

/-- `CommittedBlock::CommittedBlock(ptr<vector<uint8_t>>)` (the
deserializing constructor, wrapped by `CommittedBlock::deserialize`):
reject undersized input, read the 8-byte header size, bound-check it,
parse the header, slice out the transactions, then recompute the hash
(`calculateHash()` — the parsed header hash is overwritten, never
compared). -/
def deserializeCommittedBlock (d : List Nat) : Option CommittedBlock :=
  if d.length < 8 + 2 then none
  else
    let headerSize := fromLEBytes (d.take 8)
    if headerSize < 2 then none
    else if d.length < headerSize + 8 then none
    else if MAX_BUFFER_SIZE < headerSize then none
    else
      (parseBlockHeader ((d.drop 8).take headerSize)).bind fun hd =>
        (transactionListDeserialize hd.sizes d (8 + headerSize)).bind fun txs =>
          let b : CommittedBlock := ⟨hd.proposerIndex, hd.proposerNodeID, hd.blockID,
            hd.schainID, hd.timeStamp, hd.timeStampMs, [], txs⟩
          some { b with hash := calculateHash b }

/-- Modelled from the spec: `CommittedBlockList::serialize` — the blocks'
serializations concatenated. -/
def serializeCommittedBlockList (bs : List CommittedBlock) : List Nat :=
  flat (bs.map serializeCommittedBlock)

/-- Modelled from the spec: `CommittedBlockList::createSizes`. -/
def committedBlockListCreateSizes (bs : List CommittedBlock) : List Nat :=
  bs.map (fun b => (serializeCommittedBlock b).length)

/-- Modelled from the spec: `CommittedBlockList::deserialize(sizes, data,
offset)` — slice the buffer by the declared sizes and deserialize each
block. -/
def deserializeCommittedBlockList (sizes : List Nat) (data : List Nat) (off : Nat) :
    Option (List CommittedBlock) :=
  match takeSlices sizes off data with
  | none => none
  | some chunks => mapOption deserializeCommittedBlock chunks

/-- A block whose stored hash is the hash of its own content — what every
block built by the constructors (and by `createRandomSample`) satisfies. -/
def wellFormedBlock (b : CommittedBlock) : Prop := b.hash = calculateHash b

/-- The input bounds quantified over by the round-trip claim:
at most 50 transactions of at most 1000 bytes each, all header fields
64-bit values. -/
def blockSizeBounds (b : CommittedBlock) : Prop :=
  b.transactionList.length ≤ 50 ∧ (∀ t ∈ b.transactionList, t.length ≤ 1000) ∧
    b.proposerIndex < 2 ^ 64 ∧ b.proposerNodeID < 2 ^ 64 ∧ b.blockID < 2 ^ 64 ∧
    b.schainID < 2 ^ 64 ∧ b.timeStamp < 2 ^ 64 ∧ b.timeStampMs < 2 ^ 64

instance (b : CommittedBlock) : Decidable (wellFormedBlock b) := by
  unfold wellFormedBlock
  infer_instance

instance (b : CommittedBlock) : Decidable (blockSizeBounds b) := by
  unfold blockSizeBounds
  infer_instance

/-- Heads that cannot begin a decimal number — used to delimit number
parses. -/
def notDigitHead : List Nat → Prop
  | [] => True
  | c :: _ => isDigitByte c = false

/-- The header fields a block's canonical header carries. -/
def headerDataOf (b : CommittedBlock) : BlockHeaderData :=
  ⟨b.proposerIndex, b.proposerNodeID, b.blockID, b.schainID, b.timeStamp, b.timeStampMs,
    b.hash, b.transactionList.map List.length⟩

/-! ## The Schain driver (src/chains/Schain.cpp) -/

/-- Modelled from the spec: `MODERN_TIME` is a constant of SkaleCommon.h
(not under src/), a fixed recent epoch timestamp used only in the sanity
assertion `ASSERT(ts < 2 * MODERN_TIME)`; its exact value is immaterial to
every verified property. -/
def MODERN_TIME : Nat := 1547640182

/-- One `createBlock` callback to the host
(`ConsensusExtFace::createBlock`), as emitted by
`Schain::pushBlockToExtFace`. -/
structure ExtCall where
  transactions : List (List Nat)
  timeStamp : Nat
  timeStampMs : Nat
  blockID : Nat
deriving DecidableEq

/-- A committed block together with its threshold signature
(`getSignature() != nullptr` is modelled by `sig.isSome`). -/
structure SignedBlock where
  content : CommittedBlock
  sig : Option (List Nat)
deriving DecidableEq

/-- The mutable driver state of one `Schain`, together with the observable
traces of its effects: blocks saved to the BlockDB, `createBlock` calls to
the host, and the block ids handed to `proposeNextBlock`. -/
structure DriverState where
  lastCommittedBlockID : Nat
  lastCommittedBlockTimeStamp : Nat
  lastCommittedBlockTimeStampMs : Nat
  bootStrapped : Bool
  hasExtFace : Bool
  savedBlocks : List SignedBlock
  extCalls : List ExtCall
  proposedIds : List Nat
deriving DecidableEq

def extCallOf (b : SignedBlock) : ExtCall :=
  ⟨b.content.transactionList, b.content.timeStamp, b.content.timeStampMs, b.content.blockID⟩

/-- `Schain::pushBlockToExtFace`: emit the block to the host's
`createBlock` callback (the source guards this with `if (extFace)`). -/
def pushBlockToExtFace (s : DriverState) (b : SignedBlock) : DriverState :=
  if s.hasExtFace then { s with extCalls := s.extCalls ++ [extCallOf b] } else s

/-- `Schain::saveBlock`: persist the block in the BlockDB. -/
def saveBlock (s : DriverState) (b : SignedBlock) : DriverState :=
  { s with savedBlocks := s.savedBlocks ++ [b] }

/-- `Schain::processCommittedBlock`: `CHECK_STATE` that the block is
signed, `ASSERT` that it extends the chain by exactly one, save it, push
it to the host, and increment `lastCommittedBlockID`.  `none` models a
failed CHECK_STATE / ASSERT (an InvalidState exception). -/
def processCommittedBlock (s : DriverState) (b : SignedBlock) : Option DriverState :=
  if b.sig.isSome = false then none
  else if s.lastCommittedBlockID + 1 ≠ b.content.blockID then none
  else
    let s2 := pushBlockToExtFace (saveBlock s b) b
    some { s2 with lastCommittedBlockID := s.lastCommittedBlockID + 1 }

/-- `Schain::proposeNextBlock`: propose block `lastCommittedBlockID + 1`
(the proposal internals — pending queue, proposal hash DB, gossip, DA sig
share — are outside the verified claims; the trace records the proposed
block id). -/
def proposeNextBlock (s : DriverState) : DriverState :=
  { s with proposedIds := s.proposedIds ++ [s.lastCommittedBlockID + 1] }

/-- Outcome of `Schain::blockCommitArrived`: an early return with the state
untouched, an ASSERT / CHECK failure, or a commit with the new state. -/
inductive CommitOutcome
  | ignored (s : DriverState)
  | assertFailed
  | committed (s : DriverState)
deriving DecidableEq

/-- The proposal DB lookup
`getBlockProposalDB()->getBlockProposal(blockId, proposerIndex)`. -/
def ProposalDB : Type := Nat → Nat → Option CommittedBlock

/-- `CommittedBlock::makeObject(proposal, thresholdSig)`. -/
def makeObject (p : CommittedBlock) (sig : List Nat) : SignedBlock := ⟨p, some sig⟩

/-- `Schain::blockCommitArrived(B, proposerIndex, ts, tsMs, thresholdSig)`:
sanity-check the timestamp, ignore an already-committed block id, `ASSERT`
the id either extends the chain or the chain is empty, record the commit
timestamps, fetch the committed proposal, process the committed block and
propose the next one. -/
def blockCommitArrived (db : ProposalDB) (s : DriverState)
    (B proposerIndex ts tsMs : Nat) (sig : List Nat) : CommitOutcome :=
  if 2 * MODERN_TIME ≤ ts then .assertFailed
  else if B ≤ s.lastCommittedBlockID then .ignored s
  else if ¬ (B = s.lastCommittedBlockID + 1 ∨ s.lastCommittedBlockID = 0) then .assertFailed
  else
    let s1 := { s with lastCommittedBlockTimeStamp := ts,
                       lastCommittedBlockTimeStampMs := tsMs }
    match db B proposerIndex with
    | none => .assertFailed
    | some p =>
      match processCommittedBlock s1 (makeObject p sig) with
      | none => .assertFailed
      | some s2 => .committed (proposeNextBlock s2)

/-- The consensus BlockDB as `Schain::bootstrap` reads it:
`readLastCommittedBlockID` and `getBlock`.  A block can be unreadable
(corrupt in a snapshot), which the source catches; this is `none`. -/
structure BlockDB where
  lastCommittedInConsensus : Nat
  getBlock : Nat → Option SignedBlock

inductive BootstrapOutcome
  | ok (s : DriverState)
  | invalidStateError
  | assertFailed
deriving DecidableEq

/-- Step 2 of `Schain::bootstrap`: one-shot guard, set the committed head
and timestamps, and propose the next block. -/
def bootstrapPhase2 (s : DriverState) (lastId lastTs : Nat) : BootstrapOutcome :=
  if s.bootStrapped then .assertFailed
  else if 2 * MODERN_TIME ≤ lastTs then .assertFailed
  else
    let s1 := { s with bootStrapped := true, lastCommittedBlockID := lastId,
                       lastCommittedBlockTimeStamp := lastTs,
                       lastCommittedBlockTimeStampMs := 0 }
    .ok (proposeNextBlock s1)

/-- `Schain::bootstrap(lastCommittedBlockID, lastCommittedBlockTimeStamp)`:
reconcile the consensus DB head with the host's head.  When the DB is
exactly one block ahead (snapshot case) and that block is readable, push
it to the host and advance the head by one; a DB head below the host's or
more than one ahead is an InvalidState error.  Then run the one-shot
bootstrap. -/
def bootstrap (db : BlockDB) (s : DriverState) (lastId lastTs : Nat) : BootstrapOutcome :=
  if db.lastCommittedInConsensus = lastId + 1 then
    match db.getBlock (lastId + 1) with
    | some blk => bootstrapPhase2 (pushBlockToExtFace s blk) (lastId + 1) lastTs
    | none => bootstrapPhase2 s lastId lastTs
  else if db.lastCommittedInConsensus < lastId then .invalidStateError
  else if lastId + 1 < db.lastCommittedInConsensus then .invalidStateError
  else bootstrapPhase2 s lastId lastTs

/-- `Schain::createEmptyBlockProposal`: the timestamp of an empty block is
one millisecond after the previous committed block, with carry into
seconds at 999 ms. -/
def createEmptyBlockProposal (s : DriverState) : Nat × Nat :=
  let sec := s.lastCommittedBlockTimeStamp
  let ms := s.lastCommittedBlockTimeStampMs
  if ms = 999 then (sec + 1, 0) else (sec, ms + 1)

/-- Strict lexicographic order on (seconds, milliseconds) timestamps. -/
def tsLexLt (a b : Nat × Nat) : Prop := a.1 < b.1 ∨ (a.1 = b.1 ∧ a.2 < b.2)

/-- A block proposal, as far as the stale-input claims see it. -/
structure BlockProposal where
  blockID : Nat
  proposerIndex : Nat
  sig : Option (List Nat)
deriving DecidableEq

structure DAProof where
  blockId : Nat
  proposerIndex : Nat
deriving DecidableEq

/-- The stores touched by `Schain::proposedBlockArrived` and
`Schain::daProofArrived`: the proposal DB, the DA proof DB, the persisted
proposal vectors, and the consensus starts posted to the message queue. -/
structure SchainWorld where
  driver : DriverState
  proposalDB : List BlockProposal
  daProofDB : List DAProof
  proposalVectorDB : List (Nat × List Bool)
  startedConsensus : List Nat
deriving DecidableEq

def daProofsForBlock (l : List DAProof) (bid : Nat) : List Nat :=
  (l.filter (fun p => p.blockId = bid)).map DAProof.proposerIndex

/-- Modelled from the spec: `DAProofDB::addDAProof` (not under src/) —
record the proof and, once enough distinct proposers have DA proofs for
the block, return the boolean proposal vector. -/
def addDAProof (requiredProofs nodeCount : Nat) (l : List DAProof) (p : DAProof) :
    List DAProof × Option (List Bool) :=
  let l2 := l ++ [p]
  if requiredProofs ≤ (daProofsForBlock l2 p.blockId).dedup.length then
    (l2, some ((List.range nodeCount).map
      (fun i => (daProofsForBlock l2 p.blockId).contains (i + 1))))
  else (l2, none)

/-- `Schain::startConsensus`: post the consensus-start envelope unless the
block is already committed or lies in the future. -/
def startConsensus (w : SchainWorld) (blockID : Nat) : SchainWorld :=
  if blockID ≤ w.driver.lastCommittedBlockID then w
  else if w.driver.lastCommittedBlockID + 1 < blockID then w
  else { w with startedConsensus := w.startedConsensus ++ [blockID] }

/-- `Schain::daProofArrived`: ignore proofs at or below the last committed
block; otherwise add the proof and, if that completes a proposal vector,
persist the vector and start consensus. -/
def daProofArrived (requiredProofs nodeCount : Nat) (w : SchainWorld) (d : DAProof) :
    SchainWorld :=
  if d.blockId ≤ w.driver.lastCommittedBlockID then w
  else
    let r := addDAProof requiredProofs nodeCount w.daProofDB d
    let w1 := { w with daProofDB := r.1 }
    match r.2 with
    | none => w1
    | some pv =>
      startConsensus
        { w1 with proposalVectorDB := w1.proposalVectorDB ++ [(d.blockId, pv)] } d.blockId

/-- `Schain::proposedBlockArrived`: ignore proposals at or below the last
committed block; otherwise `CHECK_STATE` the signature (its failure is
`none`) and store the proposal. -/
def proposedBlockArrived (w : SchainWorld) (p : BlockProposal) : Option SchainWorld :=
  if p.blockID ≤ w.driver.lastCommittedBlockID then some w
  else if p.sig.isSome = false then none
  else some { w with proposalDB := w.proposalDB ++ [p] }

/-! ## The message router (src/network/TransportNetwork.cpp) -/

/-- An inbound consensus message as the router sees it. -/
structure NetMsg where
  blockID : Nat
  round : Nat
deriving DecidableEq

/-- The router's observable state: the deferred-message queue (keyed by the
message's block id) and the messages posted to the driver. -/
structure RouterState where
  deferredMessageQueue : List (Nat × NetMsg)
  posted : List NetMsg
deriving DecidableEq

/-- `TransportNetwork::addToDeferredMessageQueue`: store the message in the
deferred queue under its block id. -/
def addToDeferredMessageQueue (st : RouterState) (m : NetMsg) : RouterState :=
  { st with deferredMessageQueue := st.deferredMessageQueue ++ [(m.blockID, m)] }

/-- `Schain::postMessage` as called from the router. -/
def postToDriver (st : RouterState) (m : NetMsg) : RouterState :=
  { st with posted := st.posted ++ [m] }

/-- `TransportNetwork::postOrDefer(m, currentBlockID)`: `destRound` is the
current round of the destination BIN-CONS instance
(`getRound(createDestinationProtocolKey())`) and `destDecided` whether
that instance has decided. -/
def postOrDefer (st : RouterState) (m : NetMsg) (currentBlockID : Nat)
    (destRound : Nat) (destDecided : Bool) : RouterState :=
  if currentBlockID < m.blockID then addToDeferredMessageQueue st m
  else if m.blockID ≤ currentBlockID then
    if destRound + 1 < m.round then addToDeferredMessageQueue st m
    else if m.round = destRound + 1 ∧ destDecided = false then addToDeferredMessageQueue st m
    else postToDriver st m
  else postToDriver st m

/-- One iteration of `TransportNetwork::networkReadLoop` on a received
message: discard messages inside the catch-up window, otherwise
`postOrDefer` against `lastCommittedBlockID + 1`. -/
def networkReadLoopStep (catchupBlocks lastCommittedBlockID : Nat) (st : RouterState)
    (m : NetMsg) (destRound : Nat) (destDecided : Bool) : RouterState :=
  if m.blockID ≤ catchupBlocks then st
  else postOrDefer st m (lastCommittedBlockID + 1) destRound destDecided

/-! ## Per-peer delayed sends (src/network/TransportNetwork.cpp,
broadcastMessage and deferredMessagesLoop) -/

/-- A (message, peer info) pair held in one per-peer delayed-send deque. -/
abbrev DelayedEntry := Nat × Nat

/-- The append done by `broadcastMessage` when a send fails: push the pair
at the tail and pop the head if the deque has gone past 256 entries. -/
def delayedSendsPushBack (q : List DelayedEntry) (x : DelayedEntry) : List DelayedEntry :=
  let q2 := q ++ [x]
  if 256 < q2.length then q2.drop 1 else q2

/-- The retry done by `deferredMessagesLoop`: retry only the head entry and
remove it from the deque only when the send succeeded. -/
def delayedSendsRetryHead (q : List DelayedEntry) (sendSucceeded : Bool) : List DelayedEntry :=
  match q, sendSucceeded with
  | [], _ => []
  | _ :: rest, true => rest
  | q, false => q

/-- The operations ever applied to one per-peer deque. -/
inductive DelayedOp
  | push (x : DelayedEntry)
  | retry (sendSucceeded : Bool)

def applyDelayedOp (q : List DelayedEntry) : DelayedOp → List DelayedEntry
  | .push x => delayedSendsPushBack q x
  | .retry ok => delayedSendsRetryHead q ok

/-- Every state one per-peer deque reaches, starting empty. -/
def runDelayedOps (ops : List DelayedOp) : List DelayedEntry :=
  ops.foldl applyDelayedOp []

/-! ## Concrete states used by the witnesses and counterexamples -/

def sampleDriver0 : DriverState := ⟨0, 0, 0, false, true, [], [], []⟩

def sampleBlock1 : CommittedBlock := ⟨2, 3, 1, 1, 1000, 0, [], [[7]]⟩

def sampleSigned1 : SignedBlock := ⟨sampleBlock1, some [9]⟩

def sampleDriver1 : DriverState :=
  ⟨1, 0, 0, false, true, [sampleSigned1], [extCallOf sampleSigned1], []⟩

def sampleProposalDB : ProposalDB := fun _ _ => none

def sampleDriver999 : DriverState := ⟨5, 70, 999, true, true, [], [], []⟩

def c8blk : SignedBlock := ⟨⟨1, 1, 100, 1, 500, 0, [], []⟩, some [1]⟩

/-- A consensus DB one block ahead with the extra block readable. -/
def c8dbOk : BlockDB := ⟨100, fun i => if i = 100 then some c8blk else none⟩

/-- A consensus DB one block ahead whose extra block cannot be read
(corrupt in the snapshot). -/
def c8dbMissing : BlockDB := ⟨100, fun _ => none⟩

/-- The driver state `bootstrap c8dbMissing sampleDriver0 99 0` produces. -/
def c8sMissing : DriverState := ⟨99, 0, 0, true, true, [], [], [100]⟩

def sampleWorld0 : SchainWorld := ⟨sampleDriver999, [], [], [], []⟩

def sampleProposal5 : BlockProposal := ⟨5, 2, some [1]⟩

def sampleDAProof5 : DAProof := ⟨5, 2⟩

def c3bBase : CommittedBlock := ⟨1, 4, 7, 1, 1577836800, 250, [], [[170, 170], [187]]⟩

/-- A well-formed sample block: its hash is the hash of its content. -/
def c3b : CommittedBlock := { c3bBase with hash := calculateHash c3bBase }

def c4BlockBase : CommittedBlock := ⟨1, 1, 7, 1, 100, 1, [], [[170, 170, 170, 170, 170]]⟩

def c4Block : CommittedBlock := { c4BlockBase with hash := calculateHash c4BlockBase }

/-- The serialization of `c4Block` with its 5-byte transaction payload cut
off: the header is intact and complete, but the declared transaction sizes
run past the end of the input. -/
def c4Bytes : List Nat :=
  (serializeCommittedBlock c4Block).take ((serializeCommittedBlock c4Block).length - 5)

def c4Header : List Nat := (c4Bytes.drop 8).take (fromLEBytes (c4Bytes.take 8))

def c4HeaderData : BlockHeaderData :=
  ⟨1, 1, 7, 1, 100, 1, calculateHash c4BlockBase, [5]⟩

def c5BlockBase : CommittedBlock := ⟨1, 1, 7, 1, 100, 1, [], [[170]]⟩

def c5Block : CommittedBlock := { c5BlockBase with hash := calculateHash c5BlockBase }

def c5Bytes : List Nat := serializeCommittedBlock c5Block

/-- `c5Bytes` with its last byte — the single transaction payload byte 170
— flipped to 171 (the test's `corrupt_byte_vector` increments a byte). -/
def c5Corrupt : List Nat := c5Bytes.set (c5Bytes.length - 1) 171

/-! ### Lemmas about the utilities -/

theorem natDigitsAux_eq_digits :
    ∀ fuel n, n < 10 ^ fuel → natDigitsAux fuel n = Nat.digits 10 n := by
  intro fuel
  induction fuel with
  | zero =>
    intro n h
    have hn : n = 0 := by simpa using h
    subst hn; simp [natDigitsAux]
  | succ f ih =>
    intro n h
    match n with
    | 0 => simp [natDigitsAux]
    | m + 1 =>
      rw [natDigitsAux, Nat.digits_def' (by norm_num : (1:Nat) < 10) (Nat.succ_pos m)]
      congr 1
      refine ih _ ?_
      rw [Nat.div_lt_iff_lt_mul (by norm_num : (0:Nat) < 10)]
      calc m + 1 < 10 ^ (f + 1) := h
        _ = 10 ^ f * 10 := by rw [pow_succ]

theorem natDigits_eq (n : Nat) (h : n < 10 ^ 20) : natDigits n = Nat.digits 10 n :=
  natDigitsAux_eq_digits 20 n h

theorem digitsToNat_aux (ds : List Nat) (acc : Nat) (hds : ∀ d ∈ ds, d < 10) :
    (ds.reverse.map (· + 48)).foldl (fun a c => a * 10 + (c - 48)) acc
      = acc * 10 ^ ds.length + Nat.ofDigits 10 ds := by
  induction ds generalizing acc with
  | nil => simp [Nat.ofDigits]
  | cons d ds ih =>
    have hd : d < 10 := hds d (by simp)
    have hds' : ∀ x ∈ ds, x < 10 := fun x hx => hds x (by simp [hx])
    simp only [List.reverse_cons, List.map_append, List.foldl_append, List.map_cons,
      List.map_nil, List.foldl_cons, List.foldl_nil, ih acc hds']
    rw [Nat.ofDigits_cons]
    have hcancel : d + 48 - 48 = d := by omega
    rw [hcancel, List.length_cons, pow_succ]
    ring

theorem digitsToNat_encodeNat (n : Nat) (hn : n < 10 ^ 20) :
    digitsToNat (encodeNat n) = n := by
  by_cases h : n = 0
  · subst h; rfl
  · unfold encodeNat digitsToNat
    rw [if_neg h, natDigits_eq n hn, digitsToNat_aux _ 0
      (fun d hd => Nat.digits_lt_base (by norm_num) hd)]
    simp [Nat.ofDigits_digits]

theorem natDigitsAux_lt : ∀ fuel n, ∀ d ∈ natDigitsAux fuel n, d < 10 := by
  intro fuel
  induction fuel with
  | zero => intro n d hd; simp [natDigitsAux] at hd
  | succ f ih =>
    intro n d hd
    match n with
    | 0 => simp [natDigitsAux] at hd
    | m + 1 =>
      rw [natDigitsAux] at hd
      rcases List.mem_cons.mp hd with h | h
      · subst h; exact Nat.mod_lt _ (by norm_num)
      · exact ih _ d h

theorem encodeNat_digits (n : Nat) : ∀ c ∈ encodeNat n, isDigitByte c = true := by
  intro c hc
  unfold encodeNat natDigits at hc
  by_cases h : n = 0
  · simp [h] at hc; simp [hc, isDigitByte]
  · rw [if_neg h] at hc
    simp only [List.mem_map, List.mem_reverse] at hc
    obtain ⟨d, hd, rfl⟩ := hc
    have := natDigitsAux_lt 20 n d hd
    simp only [isDigitByte, Bool.and_eq_true, decide_eq_true_eq]
    omega

theorem natDigitsAux_ne_nil : ∀ fuel n, n ≠ 0 → 0 < fuel → natDigitsAux fuel n ≠ [] := by
  intro fuel n hn hf
  match fuel, n with
  | f + 1, m + 1 => rw [natDigitsAux]; simp

theorem encodeNat_ne_nil (n : Nat) : encodeNat n ≠ [] := by
  unfold encodeNat natDigits
  by_cases h : n = 0
  · simp [h]
  · rw [if_neg h]
    simp only [ne_eq, List.map_eq_nil_iff, List.reverse_eq_nil_iff]
    exact natDigitsAux_ne_nil 20 n h (by norm_num)

theorem length_leBytes (k n : Nat) : (leBytes k n).length = k := by
  induction k generalizing n with
  | zero => rfl
  | succ k ih => simp [leBytes, ih]

theorem mod_mul_decompose (n m : Nat) (hm : 0 < m) :
    n % 256 + 256 * (n / 256 % m) = n % (256 * m) := by
  have hr : n % 256 < 256 := Nat.mod_lt _ (by norm_num)
  have hq : n / 256 % m < m := Nat.mod_lt _ hm
  have key : n % (256 * m) = (256 * (n / 256) + n % 256) % (256 * m) := by
    rw [Nat.div_add_mod]
  rw [key]
  have e1 : 256 * (n / 256) + n % 256
      = 256 * m * (n / 256 / m) + (256 * (n / 256 % m) + n % 256) := by
    conv_lhs => rw [← Nat.div_add_mod (n / 256) m]
    ring
  rw [e1, Nat.mul_add_mod]
  have hm' : 256 * (n / 256 % m + 1) ≤ 256 * m := Nat.mul_le_mul (le_refl 256) hq
  have hlt : 256 * (n / 256 % m) + n % 256 < 256 * m := by omega
  rw [Nat.mod_eq_of_lt hlt]
  omega

theorem fromLEBytes_leBytes (k n : Nat) : fromLEBytes (leBytes k n) = n % 256 ^ k := by
  induction k generalizing n with
  | zero => simp [leBytes, fromLEBytes, Nat.mod_one]
  | succ k ih =>
    simp only [leBytes, fromLEBytes, List.foldr_cons]
    have : (leBytes k (n / 256)).foldr (fun b r => b + 256 * r) 0 = n / 256 % 256 ^ k := ih (n / 256)
    rw [this]
    rw [pow_succ, mul_comm (256 ^ k) 256]
    exact mod_mul_decompose n (256 ^ k) (pow_pos (by norm_num) k)

theorem fromLEBytes_le64 (n : Nat) (h : n < 2 ^ 64) : fromLEBytes (le64 n) = n := by
  rw [le64, fromLEBytes_leBytes]
  exact Nat.mod_eq_of_lt (lt_of_lt_of_le h (by norm_num))

theorem take_len_append (l1 l2 : List α) : (l1 ++ l2).take l1.length = l1 := by
  simp

theorem drop_len_append (l1 l2 : List α) : (l1 ++ l2).drop l1.length = l2 := by
  simp

theorem flat_length (xs : List (List Nat)) : (flat xs).length = (xs.map List.length).sum := by
  induction xs with
  | nil => rfl
  | cons x xs ih => simp [flat, ih]

/-! ### Parser round-trip lemmas -/

theorem parseLit_append (l r : List Nat) : parseLit l (l ++ r) = some r := by
  induction l with
  | nil => rfl
  | cons c cs ih => simp [parseLit, ih]

theorem notDigitHead_cons (c : Nat) (r : List Nat) (hc : isDigitByte c = false) :
    notDigitHead (c :: r) := hc

theorem spanDigits_append (xs r : List Nat) (hxs : ∀ x ∈ xs, isDigitByte x = true)
    (hr : notDigitHead r) : spanDigits (xs ++ r) = (xs, r) := by
  induction xs with
  | nil =>
    match r with
    | [] => rfl
    | c :: cs =>
      have hc : isDigitByte c = false := hr
      simp [spanDigits, hc]
  | cons x xs ih =>
    have hx : isDigitByte x = true := hxs x (by simp)
    have hxs' : ∀ y ∈ xs, isDigitByte y = true := fun y hy => hxs y (by simp [hy])
    simp [spanDigits, hx, ih hxs']

theorem parseNatB_encode (n : Nat) (r : List Nat) (hn : n < 10 ^ 20)
    (hr : notDigitHead r) : parseNatB (encodeNat n ++ r) = some (n, r) := by
  unfold parseNatB
  rw [spanDigits_append _ _ (encodeNat_digits n) hr]
  simp [encodeNat_ne_nil n, digitsToNat_encodeNat n hn]

theorem parseNatField_encode (lit : List Nat) (n : Nat) (r : List Nat) (hn : n < 10 ^ 20)
    (hr : notDigitHead r) : parseNatField lit (lit ++ (encodeNat n ++ r)) = some (n, r) := by
  unfold parseNatField
  rw [parseLit_append, Option.some_bind, parseNatB_encode n r hn hr]

theorem spanNonQuote_append (h r : List Nat) (hh : ∀ c ∈ h, c ≠ 34) :
    spanNonQuote (h ++ 34 :: r) = (h, 34 :: r) := by
  induction h with
  | nil => simp [spanNonQuote]
  | cons c cs ih =>
    have hc : c ≠ 34 := hh c (by simp)
    have hh' : ∀ x ∈ cs, x ≠ 34 := fun x hx => hh x (by simp [hx])
    simp [spanNonQuote, hc, ih hh']

theorem parseQuoted_append (h r : List Nat) (hh : ∀ c ∈ h, c ≠ 34) :
    parseQuoted (h ++ 34 :: r) = some (h, r) := by
  unfold parseQuoted
  rw [spanNonQuote_append h r hh]

theorem encodeNat_length_pos (n : Nat) : 1 ≤ (encodeNat n).length := by
  cases hc : encodeNat n with
  | nil => exact absurd hc (encodeNat_ne_nil n)
  | cons c cs => simp

theorem renderSizesInner_length (sizes : List Nat) :
    sizes.length ≤ (renderSizesInner sizes).length := by
  induction sizes with
  | nil => simp [renderSizesInner]
  | cons n ns ih =>
    have h2 := encodeNat_length_pos n
    match ns with
    | [] =>
      simp only [renderSizesInner, List.length_append, List.length_cons, List.length_nil]
      omega
    | m :: ms =>
      simp only [renderSizesInner, List.length_append, List.length_cons] at ih ⊢
      omega

theorem parseSizesAux_render (sizes : List Nat) :
    ∀ (fuel : Nat) (r : List Nat), (∀ x ∈ sizes, x < 10 ^ 20) → sizes ≠ [] →
      sizes.length ≤ fuel →
      parseSizesAux fuel (renderSizesInner sizes ++ r) = some (sizes, r) := by
  induction sizes with
  | nil => intro fuel r _ hne _; exact absurd rfl hne
  | cons n ns ih =>
    intro fuel r hs _ hf
    obtain ⟨f, rfl⟩ : ∃ f, fuel = f + 1 := by
      cases fuel with
      | zero => simp at hf
      | succ f => exact ⟨f, rfl⟩
    have hn : n < 10 ^ 20 := hs n (by simp)
    match ns with
    | [] =>
      show parseSizesAux (f + 1) ((encodeNat n ++ [93]) ++ r) = _
      rw [List.append_assoc, List.singleton_append, parseSizesAux,
        parseNatB_encode n (93 :: r) hn (notDigitHead_cons 93 r (by decide))]
      simp
    | m :: ms =>
      show parseSizesAux (f + 1) ((encodeNat n ++ 44 :: renderSizesInner (m :: ms)) ++ r) = _
      rw [List.append_assoc, List.cons_append, parseSizesAux,
        parseNatB_encode n (44 :: (renderSizesInner (m :: ms) ++ r)) hn
          (notDigitHead_cons 44 _ (by decide))]
      have hs' : ∀ x ∈ m :: ms, x < 10 ^ 20 := fun x hx => hs x (by simp [hx])
      have hf' : (m :: ms).length ≤ f := by simp only [List.length_cons] at hf ⊢; omega
      simp only [Option.some_bind, List.head?_cons, List.tail_cons, if_pos]
      rw [ih f r hs' (by simp) hf']
      simp

theorem parseSizes_render (sizes : List Nat) (r : List Nat)
    (hs : ∀ x ∈ sizes, x < 10 ^ 20) :
    parseSizes (renderSizes sizes ++ r) = some (sizes, r) := by
  match sizes with
  | [] =>
    show parseSizes ((91 :: [93]) ++ r) = _
    simp [parseSizes]
  | n :: ns =>
    show parseSizes ((91 :: renderSizesInner (n :: ns)) ++ r) = _
    rw [List.cons_append, parseSizes]
    obtain ⟨c, cs, hc⟩ : ∃ c cs, encodeNat n = c :: cs := by
      cases hc : encodeNat n with
      | nil => exact absurd hc (encodeNat_ne_nil n)
      | cons c cs => exact ⟨c, cs, rfl⟩
    have hcd : isDigitByte c = true := encodeNat_digits n c (by rw [hc]; simp)
    have hc93 : c ≠ 93 := by
      simp only [isDigitByte, Bool.and_eq_true, decide_eq_true_eq] at hcd
      omega
    have hhead : (renderSizesInner (n :: ns) ++ r).head? = some c := by
      match ns with
      | [] => rw [renderSizesInner, hc]; simp
      | m :: ms =>
        show ((encodeNat n ++ 44 :: renderSizesInner (m :: ms)) ++ r).head? = _
        rw [hc]; simp
    simp only [List.head?_cons, List.tail_cons, if_pos]
    rw [hhead]
    have hne : ¬ (some c = some 93) := by simp [hc93]
    rw [if_neg hne]
    refine parseSizesAux_render (n :: ns) _ r hs (by simp) ?_
    calc (n :: ns).length ≤ (renderSizesInner (n :: ns)).length :=
          renderSizesInner_length (n :: ns)
      _ ≤ (renderSizesInner (n :: ns) ++ r).length := by simp

theorem ndh (l r : List Nat) (h1 : isDigitByte (l.headD 0) = false) (h2 : l ≠ []) :
    notDigitHead (l ++ r) := by
  cases l with
  | nil => exact absurd rfl h2
  | cons c t =>
    rw [List.cons_append]
    exact notDigitHead_cons c (t ++ r) (by simpa using h1)

theorem parseHeaderCanonical_render (b : CommittedBlock)
    (h1 : b.proposerIndex < 10 ^ 20) (h2 : b.proposerNodeID < 10 ^ 20)
    (h3 : b.blockID < 10 ^ 20) (h4 : b.schainID < 10 ^ 20)
    (h5 : b.timeStamp < 10 ^ 20) (h6 : b.timeStampMs < 10 ^ 20)
    (hh : ∀ c ∈ b.hash, c ≠ 34)
    (hsz : ∀ x ∈ b.transactionList.map List.length, x < 10 ^ 20) :
    parseHeaderCanonical (renderHeader b) = some (headerDataOf b) := by
  unfold renderHeader renderHeaderBody parseHeaderCanonical
  simp only [List.append_assoc, List.singleton_append]
  rw [parseNatField_encode _ _ _ h1 (ndh litProposerNodeID _ (by decide) (by decide))]
  simp only [Option.some_bind]
  rw [parseNatField_encode _ _ _ h2 (ndh litBlockID _ (by decide) (by decide))]
  simp only [Option.some_bind]
  rw [parseNatField_encode _ _ _ h3 (ndh litSchainID _ (by decide) (by decide))]
  simp only [Option.some_bind]
  rw [parseNatField_encode _ _ _ h4 (ndh litTimeStamp _ (by decide) (by decide))]
  simp only [Option.some_bind]
  rw [parseNatField_encode _ _ _ h5 (ndh litTimeStampMs _ (by decide) (by decide))]
  simp only [Option.some_bind]
  rw [parseNatField_encode _ _ _ h6 (ndh litHash _ (by decide) (by decide))]
  simp only [Option.some_bind]
  rw [parseLit_append]
  simp only [Option.some_bind, List.cons_append, List.append_assoc]
  rw [parseQuoted_append _ _ hh]
  simp only [Option.some_bind]
  rw [parseLit_append]
  simp only [Option.some_bind]
  rw [parseSizes_render _ _ hsz]
  simp only [Option.some_bind]
  have hfin : parseLit [125] [125] = some ([] : List Nat) := rfl
  rw [hfin]
  simp [headerDataOf]

/-! ### Round trip of the whole serialized block -/

theorem take8_le64 (n : Nat) (y : List Nat) : (le64 n ++ y).take 8 = le64 n := by
  have h8 : (le64 n).length = 8 := by simp [le64, length_leBytes]
  conv_lhs => rw [← h8]
  exact take_len_append _ _

theorem drop8_le64 (n : Nat) (y : List Nat) : (le64 n ++ y).drop 8 = y := by
  have h8 : (le64 n).length = 8 := by simp [le64, length_leBytes]
  conv_lhs => rw [← h8]
  exact drop_len_append _ _

theorem takeSlices_flat (txs : List (List Nat)) :
    ∀ pre : List Nat,
      takeSlices (txs.map List.length) pre.length (pre ++ flat txs) = some txs := by
  induction txs with
  | nil => intro pre; rfl
  | cons x xs ih =>
    intro pre
    show takeSlices (x.length :: xs.map List.length) pre.length (pre ++ (x ++ flat xs)) = _
    rw [takeSlices]
    have hle : pre.length + x.length ≤ (pre ++ (x ++ flat xs)).length := by
      simp only [List.length_append]
      omega
    rw [if_pos hle]
    have hdrop : (pre ++ (x ++ flat xs)).drop pre.length = x ++ flat xs :=
      drop_len_append _ _
    have htake : (x ++ flat xs).take x.length = x := take_len_append _ _
    have hrec : takeSlices (xs.map List.length) (pre.length + x.length)
        (pre ++ (x ++ flat xs)) = some xs := by
      have h4 : pre.length + x.length = (pre ++ x).length := by simp
      have h5 : pre ++ (x ++ flat xs) = (pre ++ x) ++ flat xs := by simp
      rw [h4, h5]
      exact ih (pre ++ x)
    rw [hrec, Option.some_bind, hdrop, htake]

theorem renderHeaderBody_cons (b : CommittedBlock) :
    ∃ t, renderHeaderBody b = 123 :: 34 :: t := ⟨_, rfl⟩

theorem renderHeader_head (b : CommittedBlock) : (renderHeader b).head? = some 123 := by
  obtain ⟨t, ht⟩ := renderHeaderBody_cons b
  rw [renderHeader, ht]
  rfl

theorem renderHeader_getLast (b : CommittedBlock) : (renderHeader b).getLast? = some 125 :=
  List.getLast?_concat _

theorem renderHeader_length_ge (b : CommittedBlock) : 3 ≤ (renderHeader b).length := by
  obtain ⟨t, ht⟩ := renderHeaderBody_cons b
  rw [renderHeader, ht]
  simp

theorem hexChar_ne_34 (d : Nat) : hexChar d ≠ 34 := by
  unfold hexChar
  by_cases h : d < 10 <;> simp [h] <;> omega

theorem digestOfContent_ne_34 (x : List Nat) : ∀ c ∈ digestOfContent x, c ≠ 34 := by
  intro c hc
  unfold digestOfContent at hc
  simp only [List.mem_map] at hc
  obtain ⟨i, _, rfl⟩ := hc
  exact hexChar_ne_34 _

theorem digestOfContent_length (x : List Nat) : (digestOfContent x).length = 64 := by
  unfold digestOfContent
  simp

theorem calculateHash_erase_hash (b : CommittedBlock) :
    calculateHash { b with hash := [] } = calculateHash b := rfl

/-- Round trip of the serialized committed block under the bounds that make
the header well formed: all numeric fields fit in 20 decimal digits, the
stored hash is the hash of the content, and the header fits the receive
buffer. -/
theorem deserialize_serialize (b : CommittedBlock)
    (hwf : wellFormedBlock b)
    (h1 : b.proposerIndex < 10 ^ 20) (h2 : b.proposerNodeID < 10 ^ 20)
    (h3 : b.blockID < 10 ^ 20) (h4 : b.schainID < 10 ^ 20)
    (h5 : b.timeStamp < 10 ^ 20) (h6 : b.timeStampMs < 10 ^ 20)
    (hsz : ∀ x ∈ b.transactionList.map List.length, x < 10 ^ 20)
    (hbuf : (renderHeader b).length ≤ MAX_BUFFER_SIZE) :
    deserializeCommittedBlock (serializeCommittedBlock b) = some b := by
  have hh : ∀ c ∈ b.hash, c ≠ 34 := by
    rw [hwf]
    exact digestOfContent_ne_34 _
  have hlen3 := renderHeader_length_ge b
  have hlt64 : (renderHeader b).length < 2 ^ 64 :=
    lt_of_le_of_lt hbuf (by norm_num [MAX_BUFFER_SIZE])
  unfold serializeCommittedBlock deserializeCommittedBlock
  rw [List.append_assoc]
  have hdlen : (le64 (renderHeader b).length ++
      (renderHeader b ++ flat b.transactionList)).length
      = 8 + ((renderHeader b).length + (flat b.transactionList).length) := by
    simp [le64, length_leBytes]
  rw [if_neg (by rw [hdlen]; omega)]
  rw [take8_le64, fromLEBytes_le64 _ hlt64]
  rw [if_neg (by omega)]
  rw [if_neg (by rw [hdlen]; omega)]
  rw [if_neg (by rw [MAX_BUFFER_SIZE] at hbuf ⊢; omega)]
  rw [drop8_le64, take_len_append]
  have hparse : parseBlockHeader (renderHeader b) = some (headerDataOf b) := by
    unfold parseBlockHeader
    rw [if_neg (by omega)]
    rw [renderHeader_head b]
    simp only [ne_eq, not_true_eq_false, if_false, reduceCtorEq]
    rw [renderHeader_getLast b]
    simp only [ne_eq, not_true_eq_false, if_false, reduceCtorEq]
    exact parseHeaderCanonical_render b h1 h2 h3 h4 h5 h6 hh hsz
  rw [hparse]
  simp only [Option.some_bind]
  have hslices : transactionListDeserialize (headerDataOf b).sizes
      (le64 (renderHeader b).length ++ (renderHeader b ++ flat b.transactionList))
      (8 + (renderHeader b).length) = some b.transactionList := by
    unfold transactionListDeserialize headerDataOf
    have hpre : 8 + (renderHeader b).length
        = (le64 (renderHeader b).length ++ renderHeader b).length := by
      simp [le64, length_leBytes]
    have hd : le64 (renderHeader b).length ++ (renderHeader b ++ flat b.transactionList)
        = (le64 (renderHeader b).length ++ renderHeader b) ++ flat b.transactionList := by
      simp
    rw [hpre, hd]
    exact takeSlices_flat b.transactionList _
  rw [hslices]
  simp only [Option.some_bind]
  have hhash : calculateHash ⟨b.proposerIndex, b.proposerNodeID, b.blockID, b.schainID,
      b.timeStamp, b.timeStampMs, [], b.transactionList⟩ = b.hash := by
    rw [hwf]
    rfl
  simp only [headerDataOf, hhash]

/-! ### Size bounds implying the round-trip hypotheses -/

theorem encodeNat_length_le (n k : Nat) (h : n < 10 ^ k) (hk1 : 1 ≤ k) (hk2 : k ≤ 20) :
    (encodeNat n).length ≤ k := by
  unfold encodeNat
  by_cases h0 : n = 0
  · simp [h0]; omega
  · rw [if_neg h0]
    simp only [List.length_map, List.length_reverse]
    have h20 : n < 10 ^ 20 := lt_of_lt_of_le h (Nat.pow_le_pow_right (by norm_num) hk2)
    rw [natDigits_eq n h20]
    have hb := Nat.base_pow_length_digits_le 10 n (by norm_num) h0
    by_contra hcon
    push_neg at hcon
    have hc1 : 10 ^ (k + 1) ≤ 10 ^ (Nat.digits 10 n).length :=
      Nat.pow_le_pow_right (by norm_num) (by omega)
    have hc2 : 10 * n < 10 * 10 ^ k := by omega
    rw [← pow_succ'] at hc2
    omega

theorem two_pow_64_lt : (2 : Nat) ^ 64 < 10 ^ 20 := by norm_num

theorem renderSizesInner_length_le (sizes : List Nat) (h : ∀ x ∈ sizes, x ≤ 1000) :
    (renderSizesInner sizes).length ≤ 5 * sizes.length + 1 := by
  induction sizes with
  | nil => simp [renderSizesInner]
  | cons n ns ih =>
    have hn : (encodeNat n).length ≤ 4 := by
      refine encodeNat_length_le n 4 ?_ (by norm_num) (by norm_num)
      have := h n (by simp)
      omega
    match ns with
    | [] =>
      simp only [renderSizesInner, List.length_append, List.length_cons, List.length_nil]
      omega
    | m :: ms =>
      have ih' := ih (fun x hx => h x (by simp [hx]))
      simp only [renderSizesInner, List.length_append, List.length_cons] at ih' ⊢
      omega

theorem renderHeader_length_le (b : CommittedBlock) (hwf : wellFormedBlock b)
    (hsb : blockSizeBounds b) : (renderHeader b).length ≤ 600 := by
  obtain ⟨hcount, htx, h1, h2, h3, h4, h5, h6⟩ := hsb
  have e20 : ∀ n : Nat, n < 2 ^ 64 → (encodeNat n).length ≤ 20 := fun n hn =>
    encodeNat_length_le n 20 (lt_trans hn two_pow_64_lt) (by norm_num) (by norm_num)
  have e1 := e20 _ h1
  have e2 := e20 _ h2
  have e3 := e20 _ h3
  have e4 := e20 _ h4
  have e5 := e20 _ h5
  have e6 := e20 _ h6
  have ehash : b.hash.length = 64 := by rw [hwf]; exact digestOfContent_length _
  have esz : (renderSizesInner (b.transactionList.map List.length)).length ≤ 251 := by
    have hin := renderSizesInner_length_le (b.transactionList.map List.length) (by
      intro x hx
      simp only [List.mem_map] at hx
      obtain ⟨t, ht, rfl⟩ := hx
      exact htx t ht)
    have hlenmap : (b.transactionList.map List.length).length = b.transactionList.length := by
      simp
    omega
  unfold renderHeader renderHeaderBody renderSizes
  simp only [List.length_append, List.length_cons, List.length_nil, litProposerIndex,
    litProposerNodeID, litBlockID, litSchainID, litTimeStamp, litTimeStampMs, litHash, litSizes]
  omega

theorem blockSizeBounds_roundtrip (b : CommittedBlock) (hwf : wellFormedBlock b)
    (hsb : blockSizeBounds b) :
    deserializeCommittedBlock (serializeCommittedBlock b) = some b := by
  obtain ⟨hcount, htx, h1, h2, h3, h4, h5, h6⟩ := hsb
  have c20 : ∀ n : Nat, n < 2 ^ 64 → n < 10 ^ 20 := fun n hn => lt_trans hn two_pow_64_lt
  refine deserialize_serialize b hwf (c20 _ h1) (c20 _ h2) (c20 _ h3) (c20 _ h4)
    (c20 _ h5) (c20 _ h6) ?_ ?_
  · intro x hx
    simp only [List.mem_map] at hx
    obtain ⟨t, ht, rfl⟩ := hx
    have := htx t ht
    calc t.length ≤ 1000 := this
      _ < 10 ^ 20 := by norm_num
  · calc (renderHeader b).length ≤ 600 :=
        renderHeader_length_le b hwf ⟨hcount, htx, h1, h2, h3, h4, h5, h6⟩
      _ ≤ MAX_BUFFER_SIZE := by norm_num [MAX_BUFFER_SIZE]

/-! ### Round trips of the other serialized types -/

theorem tx_roundtrip (t : List Nat) (h : t.length < 2 ^ 64) :
    deserializeTransaction (serializeTransaction t) = some t := by
  unfold serializeTransaction deserializeTransaction
  have hlen : (le64 t.length ++ t).length = 8 + t.length := by simp [le64, length_leBytes]
  rw [if_neg (by omega)]
  rw [take8_le64, fromLEBytes_le64 _ h, if_pos hlen, drop8_le64]
  rw [List.take_length]

theorem txlist_roundtrip (txs : List (List Nat)) :
    transactionListDeserialize (txs.map List.length) (transactionListSerialize txs) 0
      = some txs := by
  unfold transactionListDeserialize transactionListSerialize
  have h := takeSlices_flat txs []
  simpa using h

theorem mapOption_map_of_inverse (f : α → β) (g : β → Option α) (l : List α)
    (h : ∀ x ∈ l, g (f x) = some x) : mapOption g (l.map f) = some l := by
  induction l with
  | nil => rfl
  | cons x xs ih =>
    show mapOption g (f x :: xs.map f) = _
    rw [mapOption, h x (by simp), Option.some_bind,
      ih (fun y hy => h y (by simp [hy])), Option.some_bind]

theorem blocklist_roundtrip (bs : List CommittedBlock)
    (hb : ∀ b ∈ bs, wellFormedBlock b ∧ blockSizeBounds b) :
    deserializeCommittedBlockList (committedBlockListCreateSizes bs)
      (serializeCommittedBlockList bs) 0 = some bs := by
  unfold deserializeCommittedBlockList committedBlockListCreateSizes serializeCommittedBlockList
  have h2 : bs.map (fun b => (serializeCommittedBlock b).length)
      = (bs.map serializeCommittedBlock).map List.length := by
    simp [List.map_map, Function.comp]
  have h1 : takeSlices ((bs.map serializeCommittedBlock).map List.length) 0
      (flat (bs.map serializeCommittedBlock)) = some (bs.map serializeCommittedBlock) := by
    have h := takeSlices_flat (bs.map serializeCommittedBlock) []
    simpa using h
  rw [h2, h1]
  exact mapOption_map_of_inverse _ _ bs
    (fun b hbmem => blockSizeBounds_roundtrip b (hb b hbmem).1 (hb b hbmem).2)

/-! ## Claim theorems -/

/-- C1: `lastCommittedBlockID` is monotonically non-decreasing and is
incremented by exactly 1 per finalization: a successful
`processCommittedBlock` call happens only on a block whose id equals
`lastCommittedBlockID + 1`, increases `lastCommittedBlockID` by exactly 1
(hence never decreases it), and fires the host's `createBlock` callback
exactly once for that increment. -/
theorem c1_processCommittedBlock_increment (s s' : DriverState) (b : SignedBlock)
    (h : processCommittedBlock s b = some s') (hx : s.hasExtFace = true) :
    b.content.blockID = s.lastCommittedBlockID + 1 ∧
    s'.lastCommittedBlockID = s.lastCommittedBlockID + 1 ∧
    s.lastCommittedBlockID ≤ s'.lastCommittedBlockID ∧
    s'.extCalls = s.extCalls ++ [extCallOf b] := by
  unfold processCommittedBlock at h
  split at h
  · exact absurd h (by simp)
  · split at h
    next hid => exact absurd h (by simp)
    next hid =>
      have hb : s.lastCommittedBlockID + 1 = b.content.blockID := by
        by_contra hcon
        exact hid hcon
      obtain rfl := Option.some.inj h
      unfold pushBlockToExtFace saveBlock
      rw [hx]
      refine ⟨hb.symm, ?_, ?_, ?_⟩ <;> simp

theorem c1_witness :
    processCommittedBlock sampleDriver0 sampleSigned1 = some sampleDriver1 ∧
    sampleDriver0.hasExtFace = true ∧
    (sampleSigned1.content.blockID = sampleDriver0.lastCommittedBlockID + 1 ∧
      sampleDriver1.lastCommittedBlockID = sampleDriver0.lastCommittedBlockID + 1 ∧
      sampleDriver0.lastCommittedBlockID ≤ sampleDriver1.lastCommittedBlockID ∧
      sampleDriver1.extCalls = sampleDriver0.extCalls ++ [extCallOf sampleSigned1]) :=
  ⟨by decide, by decide,
    c1_processCommittedBlock_increment sampleDriver0 sampleDriver1 sampleSigned1
      (by decide) (by decide)⟩

/-- C2: `blockCommitArrived(B, proposerIdx, ts, tsMs, sig)` returns with
the driver state unchanged when `B ≤ lastCommittedBlockID`; past that
early return it proceeds only under the precondition
`B = lastCommittedBlockID + 1 ∨ lastCommittedBlockID = 0`, and any other
`B` fails the invariant assertion. -/
theorem c2_blockCommitArrived_guard (db : ProposalDB) (s : DriverState)
    (B proposerIndex ts tsMs : Nat) (sig : List Nat) (hts : ts < 2 * MODERN_TIME) :
    (B ≤ s.lastCommittedBlockID →
      blockCommitArrived db s B proposerIndex ts tsMs sig = .ignored s) ∧
    (s.lastCommittedBlockID < B →
      ¬ (B = s.lastCommittedBlockID + 1 ∨ s.lastCommittedBlockID = 0) →
      blockCommitArrived db s B proposerIndex ts tsMs sig = .assertFailed) ∧
    (∀ s', blockCommitArrived db s B proposerIndex ts tsMs sig = .committed s' →
      B = s.lastCommittedBlockID + 1 ∨ s.lastCommittedBlockID = 0) := by
  unfold blockCommitArrived
  rw [if_neg (by omega)]
  refine ⟨?_, ?_, ?_⟩
  · intro hle
    rw [if_pos hle]
  · intro hgt hnot
    rw [if_neg (by omega), if_pos hnot]
  · intro s' hcom
    by_cases hle : B ≤ s.lastCommittedBlockID
    · rw [if_pos hle] at hcom
      exact absurd hcom (by simp)
    · rw [if_neg hle] at hcom
      by_cases hpre : B = s.lastCommittedBlockID + 1 ∨ s.lastCommittedBlockID = 0
      · exact hpre
      · rw [if_pos hpre] at hcom
        exact absurd hcom (by simp)

theorem c2_witness :
    (0 : Nat) < 2 * MODERN_TIME ∧
    (5 : Nat) ≤ sampleDriver999.lastCommittedBlockID ∧
    blockCommitArrived sampleProposalDB sampleDriver999 5 2 0 0 [] = .ignored sampleDriver999 :=
  ⟨by decide, by decide,
    (c2_blockCommitArrived_guard sampleProposalDB sampleDriver999 5 2 0 0 []
      (by decide)).1 (by decide)⟩

/-- C7: `createEmptyBlockProposal` gives an empty block the previous
committed block's timestamp plus exactly one millisecond, with carry into
the seconds at 999 ms, so the new (sec, ms) pair strictly exceeds the
predecessor's in lexicographic order. -/
theorem c7_empty_block_timestamp (s : DriverState) :
    (s.lastCommittedBlockTimeStampMs = 999 →
      createEmptyBlockProposal s = (s.lastCommittedBlockTimeStamp + 1, 0)) ∧
    (s.lastCommittedBlockTimeStampMs ≠ 999 →
      createEmptyBlockProposal s
        = (s.lastCommittedBlockTimeStamp, s.lastCommittedBlockTimeStampMs + 1)) ∧
    tsLexLt (s.lastCommittedBlockTimeStamp, s.lastCommittedBlockTimeStampMs)
      (createEmptyBlockProposal s) := by
  unfold createEmptyBlockProposal tsLexLt
  by_cases h : s.lastCommittedBlockTimeStampMs = 999 <;> simp [h]

theorem c7_witness :
    sampleDriver999.lastCommittedBlockTimeStampMs = 999 ∧
    createEmptyBlockProposal sampleDriver999
      = (sampleDriver999.lastCommittedBlockTimeStamp + 1, 0) :=
  ⟨by decide, (c7_empty_block_timestamp sampleDriver999).1 (by decide)⟩

/-- C10: stale inputs are dropped with no state change: a proposal with
`blockID ≤ lastCommittedBlockID` is returned without storing anything, and
a DA proof with `blockId ≤ lastCommittedBlockID` is returned without
updating the proof DB, persisting a proposal vector, or starting
consensus. -/
theorem c10_stale_inputs_dropped (w : SchainWorld) (p : BlockProposal) (d : DAProof)
    (requiredProofs nodeCount : Nat)
    (hp : p.blockID ≤ w.driver.lastCommittedBlockID)
    (hd : d.blockId ≤ w.driver.lastCommittedBlockID) :
    proposedBlockArrived w p = some w ∧
    daProofArrived requiredProofs nodeCount w d = w := by
  constructor
  · unfold proposedBlockArrived
    rw [if_pos hp]
  · unfold daProofArrived
    rw [if_pos hd]

theorem c10_witness :
    sampleProposal5.blockID ≤ sampleWorld0.driver.lastCommittedBlockID ∧
    sampleDAProof5.blockId ≤ sampleWorld0.driver.lastCommittedBlockID ∧
    proposedBlockArrived sampleWorld0 sampleProposal5 = some sampleWorld0 ∧
    daProofArrived 3 4 sampleWorld0 sampleDAProof5 = sampleWorld0 :=
  ⟨by decide, by decide,
    (c10_stale_inputs_dropped sampleWorld0 sampleProposal5 sampleDAProof5 3 4
      (by decide) (by decide)).1,
    (c10_stale_inputs_dropped sampleWorld0 sampleProposal5 sampleDAProof5 3 4
      (by decide) (by decide)).2⟩

/-- C6: routing of an inbound envelope with block id `Bm` and round `Rm`,
with `Bc = lastCommittedBlockID + 1` and `Rc` the destination instance's
round: discard if `Bm ≤ catchupBlocks`; defer (keyed by `Bm`) if
`Bm > Bc`, or if `Rm > Rc + 1`, or if `Rm = Rc + 1` and the destination
has not decided; otherwise post to the driver's queue. -/
theorem c6_postOrDefer_routing (catchupBlocks lastCommitted : Nat) (st : RouterState)
    (m : NetMsg) (destRound : Nat) (destDecided : Bool) :
    (m.blockID ≤ catchupBlocks →
      networkReadLoopStep catchupBlocks lastCommitted st m destRound destDecided = st) ∧
    (catchupBlocks < m.blockID → lastCommitted + 1 < m.blockID →
      networkReadLoopStep catchupBlocks lastCommitted st m destRound destDecided
        = addToDeferredMessageQueue st m) ∧
    (catchupBlocks < m.blockID → m.blockID ≤ lastCommitted + 1 →
      destRound + 1 < m.round →
      networkReadLoopStep catchupBlocks lastCommitted st m destRound destDecided
        = addToDeferredMessageQueue st m) ∧
    (catchupBlocks < m.blockID → m.blockID ≤ lastCommitted + 1 →
      m.round = destRound + 1 → destDecided = false →
      networkReadLoopStep catchupBlocks lastCommitted st m destRound destDecided
        = addToDeferredMessageQueue st m) ∧
    (catchupBlocks < m.blockID → m.blockID ≤ lastCommitted + 1 →
      (m.round ≤ destRound ∨ (m.round = destRound + 1 ∧ destDecided = true)) →
      networkReadLoopStep catchupBlocks lastCommitted st m destRound destDecided
        = postToDriver st m) := by
  unfold networkReadLoopStep postOrDefer
  refine ⟨?_, ?_, ?_, ?_, ?_⟩
  · intro h
    rw [if_pos h]
  · intro h1 h2
    rw [if_neg (by omega), if_pos (by omega)]
  · intro h1 h2 h3
    rw [if_neg (by omega), if_neg (by omega), if_pos h2, if_pos h3]
  · intro h1 h2 h3 h4
    rw [if_neg (by omega), if_neg (by omega), if_pos h2, if_neg (by omega),
      if_pos ⟨h3, h4⟩]
  · intro h1 h2 h3
    rw [if_neg (by omega), if_neg (by omega), if_pos h2, if_neg (by omega),
      if_neg (by
        rintro ⟨hr, hdec⟩
        rcases h3 with h3 | ⟨_, h3⟩
        · omega
        · rw [h3] at hdec; exact absurd hdec (by simp))]

theorem c6_witness :
    (3 : Nat) < 7 ∧ (7 : Nat) ≤ 6 + 1 ∧ ((0 : Nat) ≤ 2 ∨ ((0 : Nat) = 2 + 1 ∧ true = true)) ∧
    networkReadLoopStep 3 6 ⟨[], []⟩ ⟨7, 0⟩ 2 true = postToDriver ⟨[], []⟩ ⟨7, 0⟩ :=
  ⟨by norm_num, by norm_num, Or.inl (by norm_num),
    (c6_postOrDefer_routing 3 6 ⟨[], []⟩ ⟨7, 0⟩ 2 true).2.2.2.2 (by norm_num) (by norm_num)
      (Or.inl (by norm_num))⟩

theorem runDelayedOps_bound : ∀ (ops : List DelayedOp) (q : List DelayedEntry),
    q.length ≤ 256 → (ops.foldl applyDelayedOp q).length ≤ 256 := by
  intro ops
  induction ops with
  | nil => intro q hq; exact hq
  | cons op rest ih =>
    intro q hq
    refine ih (applyDelayedOp q op) ?_
    match op with
    | .push x =>
      show (delayedSendsPushBack q x).length ≤ 256
      unfold delayedSendsPushBack
      by_cases h : 256 < (q ++ [x]).length
      · rw [if_pos h]
        simp only [List.length_drop, List.length_append, List.length_cons, List.length_nil]
        omega
      · rw [if_neg h]
        omega
    | .retry ok =>
      show (delayedSendsRetryHead q ok).length ≤ 256
      match q, ok with
      | [], _ => simp [delayedSendsRetryHead]
      | y :: rest2, true =>
        simp only [delayedSendsRetryHead, List.length_cons] at hq ⊢
        omega
      | y :: rest2, false => simpa [delayedSendsRetryHead] using hq

/-- C9: every per-peer delayed-sends deque holds at most 256 entries in
every reachable state: a failed broadcast send appends the pair at the
tail, evicting the head entry exactly when the deque is full, and the
background loop retries only the head entry, removing it on success. -/
theorem c9_delayed_sends_bounded (q : List DelayedEntry) (x y : DelayedEntry)
    (rest : List DelayedEntry) (ops : List DelayedOp) :
    (q.length < 256 → delayedSendsPushBack q x = q ++ [x]) ∧
    (q.length = 256 → delayedSendsPushBack q x = q.drop 1 ++ [x]) ∧
    (q.length ≤ 256 → (delayedSendsPushBack q x).length ≤ 256) ∧
    delayedSendsRetryHead (y :: rest) true = rest ∧
    delayedSendsRetryHead q false = q ∧
    (runDelayedOps ops).length ≤ 256 := by
  refine ⟨?_, ?_, ?_, rfl, ?_, runDelayedOps_bound ops [] (by simp)⟩
  · intro h
    unfold delayedSendsPushBack
    rw [if_neg (by simp; omega)]
  · intro h
    unfold delayedSendsPushBack
    rw [if_pos (by simp; omega)]
    match q, h with
    | a :: t, _ => simp
  · intro h
    unfold delayedSendsPushBack
    by_cases hgt : 256 < (q ++ [x]).length
    · rw [if_pos hgt]
      simp only [List.length_drop, List.length_append, List.length_cons, List.length_nil]
      omega
    · rw [if_neg hgt]
      omega
  · match q with
    | [] => rfl
    | a :: t => rfl

/-- C8 (amended): `bootstrap(lastCommittedId, lastCommittedTs)` reconciles
the consensus DB head with the host's head: when the DB head equals
`lastCommittedId + 1` and the extra block is readable from the DB, that
block is pushed to the host exactly once and the driver then proposes
block `lastCommittedId + 2`; when the extra block is unreadable (corrupt
snapshot), nothing is pushed and the driver proposes
`lastCommittedId + 1` (catch-up will fetch the block); when the DB head is
below `lastCommittedId` or more than one above it, bootstrap fails with an
InvalidState error and commits nothing. -/
theorem c8_bootstrap_reconciliation (db : BlockDB) (s : DriverState)
    (lastId lastTs : Nat) (hts : lastTs < 2 * MODERN_TIME)
    (hboot : s.bootStrapped = false) (hext : s.hasExtFace = true) :
    (∀ blk, db.lastCommittedInConsensus = lastId + 1 →
      db.getBlock (lastId + 1) = some blk →
      bootstrap db s lastId lastTs
        = .ok { s with
                bootStrapped := true,
                lastCommittedBlockID := lastId + 1,
                lastCommittedBlockTimeStamp := lastTs,
                lastCommittedBlockTimeStampMs := 0,
                extCalls := s.extCalls ++ [extCallOf blk],
                proposedIds := s.proposedIds ++ [lastId + 2] }) ∧
    (db.lastCommittedInConsensus = lastId + 1 → db.getBlock (lastId + 1) = none →
      bootstrap db s lastId lastTs
        = .ok { s with
                bootStrapped := true,
                lastCommittedBlockID := lastId,
                lastCommittedBlockTimeStamp := lastTs,
                lastCommittedBlockTimeStampMs := 0,
                proposedIds := s.proposedIds ++ [lastId + 1] }) ∧
    (db.lastCommittedInConsensus < lastId ∨ lastId + 1 < db.lastCommittedInConsensus →
      bootstrap db s lastId lastTs = .invalidStateError) := by
  unfold bootstrap bootstrapPhase2 pushBlockToExtFace proposeNextBlock
  refine ⟨?_, ?_, ?_⟩
  · intro blk hhead hblk
    rw [if_pos hhead, hblk]
    rw [hext]
    simp only [if_true, hboot]
    rw [if_neg (by simp), if_neg (by omega)]
  · intro hhead hblk
    rw [if_pos hhead, hblk, hboot]
    rw [if_neg (by simp), if_neg (by omega)]
  · intro hdiv
    rcases hdiv with hlo | hhi
    · rw [if_neg (by omega), if_pos hlo]
    · rw [if_neg (by omega), if_neg (by omega), if_pos hhi]

/-- C8 counterexample: with the consensus DB head exactly one above the
host's head (100 = 99 + 1) but the extra block unreadable from the DB,
bootstrap succeeds without pushing anything to the host and then proposes
block 100 — not, as the claim states, pushing the block once and proposing
block 101. -/
theorem c8_counterexample :
    c8dbMissing.lastCommittedInConsensus = 99 + 1 ∧
    bootstrap c8dbMissing sampleDriver0 99 0 = .ok c8sMissing ∧
    c8sMissing.extCalls = [] ∧
    c8sMissing.proposedIds = [99 + 1] := by
  refine ⟨rfl, ?_, rfl, rfl⟩
  decide

theorem c8_witness :
    (0 : Nat) < 2 * MODERN_TIME ∧
    sampleDriver0.bootStrapped = false ∧
    sampleDriver0.hasExtFace = true ∧
    c8dbOk.lastCommittedInConsensus = 99 + 1 ∧
    c8dbOk.getBlock (99 + 1) = some c8blk ∧
    bootstrap c8dbOk sampleDriver0 99 0
      = .ok { sampleDriver0 with
              bootStrapped := true,
              lastCommittedBlockID := 99 + 1,
              lastCommittedBlockTimeStamp := 0,
              lastCommittedBlockTimeStampMs := 0,
              extCalls := sampleDriver0.extCalls ++ [extCallOf c8blk],
              proposedIds := sampleDriver0.proposedIds ++ [99 + 2] } :=
  ⟨by decide, by decide, by decide, by decide, by decide,
    (c8_bootstrap_reconciliation c8dbOk sampleDriver0 99 0 (by decide) (by decide)
      (by decide)).1 c8blk (by decide) (by decide)⟩

theorem c9_witness :
    ([] : List DelayedEntry).length < 256 ∧
    delayedSendsPushBack [] (1, 2) = [(1, 2)] ∧
    delayedSendsRetryHead [(1, 2)] true = [] ∧
    (runDelayedOps [.push (1, 2), .retry true, .retry false]).length ≤ 256 :=
  ⟨by decide,
    (c9_delayed_sends_bounded [] (1, 2) (1, 2) [] []).1 (by decide),
    (c9_delayed_sends_bounded [] (1, 2) (1, 2) [] []).2.2.2.1,
    (c9_delayed_sends_bounded [] (1, 2) (1, 2) []
      [.push (1, 2), .retry true, .retry false]).2.2.2.2.2⟩

/-- C3: deserialization inverts serialization for Transaction,
TransactionList, CommittedBlock and CommittedBlockList, for every input
within the generators' bounds: transactions of at most 1000 bytes, lists
of at most 50 items, 64-bit header fields, and blocks whose stored hash is
the hash of their content (as every constructed block's is). -/
theorem c3_serialization_roundtrip (t : List Nat) (txs : List (List Nat))
    (b : CommittedBlock) (bs : List CommittedBlock)
    (ht : t.length ≤ 1000)
    (hb : wellFormedBlock b ∧ blockSizeBounds b)
    (hbs : ∀ x ∈ bs, wellFormedBlock x ∧ blockSizeBounds x) :
    deserializeTransaction (serializeTransaction t) = some t ∧
    transactionListDeserialize (txs.map List.length) (transactionListSerialize txs) 0
      = some txs ∧
    deserializeCommittedBlock (serializeCommittedBlock b) = some b ∧
    deserializeCommittedBlockList (committedBlockListCreateSizes bs)
      (serializeCommittedBlockList bs) 0 = some bs :=
  ⟨tx_roundtrip t (lt_of_le_of_lt ht (by norm_num)),
   txlist_roundtrip txs,
   blockSizeBounds_roundtrip b hb.1 hb.2,
   blocklist_roundtrip bs hbs⟩

theorem c3_witness :
    ([5, 6] : List Nat).length ≤ 1000 ∧
    (wellFormedBlock c3b ∧ blockSizeBounds c3b) ∧
    deserializeTransaction (serializeTransaction [5, 6]) = some [5, 6] ∧
    transactionListDeserialize ([[1], [2, 3]].map List.length)
      (transactionListSerialize [[1], [2, 3]]) 0 = some [[1], [2, 3]] ∧
    deserializeCommittedBlock (serializeCommittedBlock c3b) = some c3b ∧
    deserializeCommittedBlockList (committedBlockListCreateSizes [c3b])
      (serializeCommittedBlockList [c3b]) 0 = some [c3b] :=
  ⟨by decide, ⟨by decide, by decide⟩,
    c3_serialization_roundtrip [5, 6] [[1], [2, 3]] c3b [c3b] (by decide)
      ⟨by decide, by decide⟩ (by decide)⟩

/-! ### C4: characterization of deserialization failure -/

theorem takeSlices_some_iff (sizes : List Nat) : ∀ (off : Nat) (d : List Nat),
    (∃ sl, takeSlices sizes off d = some sl) ↔ (sizes = [] ∨ off + sizes.sum ≤ d.length) := by
  induction sizes with
  | nil =>
    intro off d
    exact ⟨fun _ => Or.inl rfl, fun _ => ⟨[], rfl⟩⟩
  | cons sz rest ih =>
    intro off d
    unfold takeSlices
    by_cases h : off + sz ≤ d.length
    · rw [if_pos h]
      constructor
      · rintro ⟨sl, hsl⟩
        cases hrec : takeSlices rest (off + sz) d with
        | none => rw [hrec] at hsl; exact absurd hsl (by simp)
        | some l =>
          have hih := (ih (off + sz) d).mp ⟨l, hrec⟩
          right
          simp only [List.sum_cons]
          rcases hih with hnil | hle
          · subst hnil
            simp only [List.sum_nil]
            omega
          · omega
      · intro hcase
        rcases hcase with hnil | hle
        · exact absurd hnil (by simp)
        · have hex : ∃ l, takeSlices rest (off + sz) d = some l := by
            refine (ih (off + sz) d).mpr ?_
            by_cases hr : rest = []
            · exact Or.inl hr
            · right
              simp only [List.sum_cons] at hle
              omega
          obtain ⟨l, hl⟩ := hex
          exact ⟨_, by rw [hl, Option.some_bind]⟩
    · rw [if_neg h]
      constructor
      · rintro ⟨sl, hsl⟩
        exact absurd hsl (by simp)
      · intro hcase
        rcases hcase with hnil | hle
        · exact absurd hnil (by simp)
        · simp only [List.sum_cons] at hle
          omega

/-- C4 (amended): deserialization rejects an input exactly when the header
size prefix is below 2, overruns the input or the receive buffer, or the
JSON header fails to parse (in particular whenever a brace is missing or a
required field is absent), or — a case the claim omits — when the declared
transaction sizes run past the end of the input; every input passing all
of these checks yields a block.  Header parse success forces the brace and
minimum-length conditions. -/
theorem c4_deserialize_reject_conditions (d : List Nat) (h : List Nat)
    (hd2 : BlockHeaderData) :
    ((∃ b, deserializeCommittedBlock d = some b) ↔
      (2 ≤ fromLEBytes (d.take 8) ∧
       fromLEBytes (d.take 8) + 8 ≤ d.length ∧
       fromLEBytes (d.take 8) ≤ MAX_BUFFER_SIZE ∧
       ∃ hd', parseBlockHeader ((d.drop 8).take (fromLEBytes (d.take 8))) = some hd' ∧
         (hd'.sizes = [] ∨ 8 + fromLEBytes (d.take 8) + hd'.sizes.sum ≤ d.length))) ∧
    (parseBlockHeader h = some hd2 →
      2 < h.length ∧ h.head? = some 123 ∧ h.getLast? = some 125) := by
  constructor
  · unfold deserializeCommittedBlock transactionListDeserialize
    by_cases h10 : d.length < 8 + 2
    · rw [if_pos h10]
      constructor
      · rintro ⟨b, hb⟩
        exact absurd hb (by simp)
      · rintro ⟨hA, hB, _⟩
        omega
    · rw [if_neg h10]
      by_cases hA : fromLEBytes (d.take 8) < 2
      · rw [if_pos hA]
        constructor
        · rintro ⟨b, hb⟩
          exact absurd hb (by simp)
        · rintro ⟨hA2, _⟩
          omega
      · rw [if_neg hA]
        by_cases hB : d.length < fromLEBytes (d.take 8) + 8
        · rw [if_pos hB]
          constructor
          · rintro ⟨b, hb⟩
            exact absurd hb (by simp)
          · rintro ⟨_, hB2, _⟩
            omega
        · rw [if_neg hB]
          by_cases hC : MAX_BUFFER_SIZE < fromLEBytes (d.take 8)
          · rw [if_pos hC]
            constructor
            · rintro ⟨b, hb⟩
              exact absurd hb (by simp)
            · rintro ⟨_, _, hC2, _⟩
              omega
          · rw [if_neg hC]
            cases hp : parseBlockHeader ((d.drop 8).take (fromLEBytes (d.take 8))) with
            | none =>
              constructor
              · rintro ⟨b, hb⟩
                exact absurd hb (by simp)
              · rintro ⟨_, _, _, hd', hp', _⟩
                exact absurd hp' (by simp)
            | some hd1 =>
              rw [Option.some_bind]
              cases hts : takeSlices hd1.sizes (8 + fromLEBytes (d.take 8)) d with
              | none =>
                constructor
                · rintro ⟨b, hb⟩
                  exact absurd hb (by simp)
                · rintro ⟨_, _, _, hd', hp', hsum⟩
                  have hdd : hd' = hd1 := (Option.some.inj hp').symm
                  subst hdd
                  obtain ⟨sl, hsl⟩ :=
                    (takeSlices_some_iff hd'.sizes (8 + fromLEBytes (d.take 8)) d).mpr
                      (by
                        rcases hsum with hnil | hle
                        · exact Or.inl hnil
                        · right
                          omega)
                  rw [hts] at hsl
                  exact absurd hsl (by simp)
              | some txs =>
                rw [Option.some_bind]
                constructor
                · intro _
                  refine ⟨by omega, by omega, by omega, hd1, rfl, ?_⟩
                  have hyes :=
                    (takeSlices_some_iff hd1.sizes (8 + fromLEBytes (d.take 8)) d).mp
                      ⟨txs, hts⟩
                  rcases hyes with hnil | hle
                  · exact Or.inl hnil
                  · right
                    omega
                · intro _
                  exact ⟨_, rfl⟩
  · intro hp
    unfold parseBlockHeader at hp
    by_cases hl : h.length ≤ 2
    · rw [if_pos hl] at hp
      exact absurd hp (by simp)
    · rw [if_neg hl] at hp
      by_cases hhd : h.head? ≠ some 123
      · rw [if_pos hhd] at hp
        exact absurd hp (by simp)
      · rw [if_neg hhd] at hp
        by_cases hlast : h.getLast? ≠ some 125
        · rw [if_pos hlast] at hp
          exact absurd hp (by simp)
        · push_neg at hhd hlast
          exact ⟨by omega, hhd, hlast⟩

/-- C4 counterexample: `c4Bytes` is a serialized block with its 5-byte
transaction payload cut off.  None of the claim's reject conditions holds
— the header size is in range, the braces are present, and every required
field parses — yet deserialization rejects, because the declared
transaction sizes run past the end of the input. -/
theorem c4_counterexample :
    2 ≤ fromLEBytes (c4Bytes.take 8) ∧
    fromLEBytes (c4Bytes.take 8) + 8 ≤ c4Bytes.length ∧
    fromLEBytes (c4Bytes.take 8) ≤ MAX_BUFFER_SIZE ∧
    c4Header.head? = some 123 ∧
    c4Header.getLast? = some 125 ∧
    parseBlockHeader c4Header = some c4HeaderData ∧
    deserializeCommittedBlock c4Bytes = none := by
  decide

theorem c4_witness :
    parseBlockHeader (renderHeader c3b) = some (headerDataOf c3b) ∧
    (2 < (renderHeader c3b).length ∧ (renderHeader c3b).head? = some 123 ∧
      (renderHeader c3b).getLast? = some 125) ∧
    (∃ b, deserializeCommittedBlock (serializeCommittedBlock c3b) = some b) :=
  ⟨by decide,
    (c4_deserialize_reject_conditions (serializeCommittedBlock c3b) (renderHeader c3b)
      (headerDataOf c3b)).2 (by decide),
    ((c4_deserialize_reject_conditions (serializeCommittedBlock c3b) (renderHeader c3b)
      (headerDataOf c3b)).1).mpr
      ⟨by decide, by decide, by decide, headerDataOf c3b, by decide, by decide⟩⟩

/-! ### C5: a corrupted payload is not detected -/

theorem takeSlices_exact (sizes : List Nat) : ∀ (pre payload : List Nat),
    payload.length = sizes.sum →
    ∃ sl, takeSlices sizes pre.length (pre ++ payload) = some sl ∧
      flat sl = payload ∧ sl.map List.length = sizes := by
  induction sizes with
  | nil =>
    intro pre payload hlen
    have hnil : payload = [] := List.eq_nil_of_length_eq_zero (by simpa using hlen)
    subst hnil
    exact ⟨[], rfl, rfl, rfl⟩
  | cons sz rest ih =>
    intro pre payload hlen
    simp only [List.sum_cons] at hlen
    have hsz : sz ≤ payload.length := by omega
    obtain ⟨sl, hsl, hflat, hmap⟩ := ih (pre ++ payload.take sz) (payload.drop sz) (by
      simp only [List.length_drop]
      omega)
    have hoff : pre.length + sz = (pre ++ payload.take sz).length := by
      simp only [List.length_append, List.length_take]
      omega
    have he : pre ++ payload = (pre ++ payload.take sz) ++ payload.drop sz := by
      rw [List.append_assoc, List.take_append_drop]
    have hrec : takeSlices rest (pre.length + sz) (pre ++ payload) = some sl := by
      rw [hoff, he]
      exact hsl
    refine ⟨payload.take sz :: sl, ?_, ?_, ?_⟩
    · unfold takeSlices
      rw [if_pos (by simp only [List.length_append]; omega), hrec, Option.some_bind,
        drop_len_append]
    · show payload.take sz ++ flat sl = payload
      rw [hflat, List.take_append_drop]
    · show (payload.take sz).length :: sl.map List.length = sz :: rest
      rw [hmap, List.length_take]
      congr 1
      omega

/-- C5 (amended): a single-byte flip is NOT detected with probability 1:
deserialization recomputes the hash without comparing it to the header's,
so any corruption confined to the transaction-payload region — in
particular any byte flip there — still deserializes successfully, to a
block with the same header fields whose transaction content is the
corrupted payload.  (Only corruptions that break the length, brace, or
header-field checks are rejected; the source tree's own corruption test
for CommittedBlock is commented out.) -/
theorem c5_payload_corruption_accepted (b : CommittedBlock)
    (hwf : wellFormedBlock b) (hsb : blockSizeBounds b)
    (payload : List Nat) (hlen : payload.length = (flat b.transactionList).length) :
    ∃ b', deserializeCommittedBlock
        (le64 (renderHeader b).length ++ (renderHeader b ++ payload)) = some b' ∧
      b'.blockID = b.blockID ∧ b'.proposerIndex = b.proposerIndex ∧
      b'.timeStamp = b.timeStamp ∧ b'.timeStampMs = b.timeStampMs ∧
      flat b'.transactionList = payload := by
  obtain ⟨hcount, htx, h1, h2, h3, h4, h5, h6⟩ := hsb
  have c20 : ∀ n : Nat, n < 2 ^ 64 → n < 10 ^ 20 := fun n hn => lt_trans hn two_pow_64_lt
  have hh : ∀ c ∈ b.hash, c ≠ 34 := by
    rw [hwf]
    exact digestOfContent_ne_34 _
  have hsz : ∀ x ∈ b.transactionList.map List.length, x < 10 ^ 20 := by
    intro x hx
    simp only [List.mem_map] at hx
    obtain ⟨t, ht, rfl⟩ := hx
    have := htx t ht
    omega
  have hbuf : (renderHeader b).length ≤ MAX_BUFFER_SIZE := by
    calc (renderHeader b).length ≤ 600 :=
        renderHeader_length_le b hwf ⟨hcount, htx, h1, h2, h3, h4, h5, h6⟩
      _ ≤ MAX_BUFFER_SIZE := by norm_num [MAX_BUFFER_SIZE]
  have hlen3 := renderHeader_length_ge b
  have hlt64 : (renderHeader b).length < 2 ^ 64 :=
    lt_of_le_of_lt hbuf (by norm_num [MAX_BUFFER_SIZE])
  have hsum : payload.length = (b.transactionList.map List.length).sum := by
    rw [hlen, flat_length]
  obtain ⟨sl, hsl, hflat, hmap⟩ :=
    takeSlices_exact (b.transactionList.map List.length)
      (le64 (renderHeader b).length ++ renderHeader b) payload hsum
  unfold deserializeCommittedBlock
  have hdlen : (le64 (renderHeader b).length ++ (renderHeader b ++ payload)).length
      = 8 + ((renderHeader b).length + payload.length) := by
    simp [le64, length_leBytes]
  rw [if_neg (by rw [hdlen]; omega)]
  rw [take8_le64, fromLEBytes_le64 _ hlt64]
  rw [if_neg (by omega)]
  rw [if_neg (by rw [hdlen]; omega)]
  rw [if_neg (by rw [MAX_BUFFER_SIZE] at hbuf ⊢; omega)]
  rw [drop8_le64, take_len_append]
  have hparse : parseBlockHeader (renderHeader b) = some (headerDataOf b) := by
    unfold parseBlockHeader
    rw [if_neg (by omega)]
    rw [renderHeader_head b]
    simp only [ne_eq, not_true_eq_false, if_false, reduceCtorEq]
    rw [renderHeader_getLast b]
    simp only [ne_eq, not_true_eq_false, if_false, reduceCtorEq]
    exact parseHeaderCanonical_render b (c20 _ h1) (c20 _ h2) (c20 _ h3) (c20 _ h4)
      (c20 _ h5) (c20 _ h6) hh hsz
  rw [hparse, Option.some_bind]
  have hslices : transactionListDeserialize (headerDataOf b).sizes
      (le64 (renderHeader b).length ++ (renderHeader b ++ payload))
      (8 + (renderHeader b).length) = some sl := by
    unfold transactionListDeserialize headerDataOf
    have hpre : 8 + (renderHeader b).length
        = (le64 (renderHeader b).length ++ renderHeader b).length := by
      simp [le64, length_leBytes]
    have hd : le64 (renderHeader b).length ++ (renderHeader b ++ payload)
        = (le64 (renderHeader b).length ++ renderHeader b) ++ payload := by
      simp
    rw [hpre, hd]
    exact hsl
  rw [hslices, Option.some_bind]
  exact ⟨_, rfl, rfl, rfl, rfl, rfl, hflat⟩

/-- C5 counterexample: flipping the final byte of `c5Bytes` — the single
transaction payload byte — from 170 to 171 is NOT rejected:
deserialization succeeds, refuting detection with probability 1. -/
theorem c5_counterexample :
    c5Corrupt ≠ c5Bytes ∧
    (deserializeCommittedBlock c5Bytes).isSome = true ∧
    (deserializeCommittedBlock c5Corrupt).isSome = true ∧
    deserializeCommittedBlock c5Corrupt ≠ deserializeCommittedBlock c5Bytes := by
  decide

theorem c5_witness :
    wellFormedBlock c5Block ∧ blockSizeBounds c5Block ∧
    ([171] : List Nat).length = (flat c5Block.transactionList).length ∧
    (∃ b', deserializeCommittedBlock
        (le64 (renderHeader c5Block).length ++ (renderHeader c5Block ++ [171]))
        = some b' ∧
      b'.blockID = c5Block.blockID ∧ b'.proposerIndex = c5Block.proposerIndex ∧
      b'.timeStamp = c5Block.timeStamp ∧ b'.timeStampMs = c5Block.timeStampMs ∧
      flat b'.transactionList = [171]) :=
  ⟨by decide, by decide, by decide,
    c5_payload_corruption_accepted c5Block (by decide) (by decide) [171] (by decide)⟩

end Skale
